import Mathlib

/-!
# Verification of the startspring version-interval model and archive extraction

This file gives a shallow embedding of the core logic of the repository:

* `VersionRange` with its `contains` containment test, `string` rendering
  and `unmarshalJSON` interval parsing (src/main.go, lines 79-157);
* `unzip`, the archive materialization routine (src/main.go, lines 196-245),
  over an explicit model of the filesystem.

Machine behaviour that Go surfaces as a runtime panic (nil-pointer
dereference when a `*version.Version` is `nil`, index-out-of-range on a
byte slice) is modelled by `Option`/error results: `none` marks a panic.
-/

/-! ## Semantic versions

The repository compares versions with the external `hashicorp/go-version`
library (`version.NewSemver`, `LessThan`, `LessThanOrEqual`, `GreaterThan`,
`GreaterThanOrEqual`).  The library is not part of this repository's
sources; following the spec's data model (§3 "SemanticVersion": a dotted
numeric version identifier compared component-wise by standard precedence
rules) we embed the dotted-numeric fragment of it: a version is the list
of its numeric segments, padded to at least three segments exactly as
`go-version` does at parse time, and comparison is component-wise with
missing segments reading as zero.  Strings outside this fragment
(pre-release tags and similar) are treated as unparseable; no claim in
scope exercises them.  `version.NewSemver` returns a `nil` pointer on a
malformed input, and every comparison method dereferences both pointers,
so comparisons on `Option Version` yield `none` (panic) whenever either
side failed to parse. -/

/-- A parsed semantic version: its numeric segments (length ≥ 3 after the
parse-time padding performed by `newSemver`). -/
structure Version where
  segments : List Nat
deriving DecidableEq, Repr

/-- Component-wise comparison of segment lists; a missing segment compares
as zero (this matches `go-version`'s `Compare` on numeric versions). -/
def cmpSegs : List Nat → List Nat → Ordering
  | [], bs => if bs.all (fun b => b = 0) then .eq else .lt
  | a :: as1, [] => if a = 0 then cmpSegs as1 [] else .gt
  | a :: as1, b :: bs =>
    if a < b then .lt else if b < a then .gt else cmpSegs as1 bs

/-- `Version.compare` mirrors `(*version.Version).Compare` on the numeric
fragment. -/
def Version.compare (a b : Version) : Ordering :=
  cmpSegs a.segments b.segments

/-- `ordLe o` is true when the comparison outcome `o` means `≤`. -/
def ordLe : Ordering → Bool
  | .gt => false
  | _ => true

/-- `ordLt o` is true when the comparison outcome `o` means `<`. -/
def ordLt : Ordering → Bool
  | .lt => true
  | _ => false

/-- Split a character list at every `.`, keeping empty parts (the exact
behaviour of splitting a string on `"."`). -/
def splitDots : List Char → List (List Char)
  | [] => [[]]
  | c :: rest =>
    if c = '.' then [] :: splitDots rest
    else
      match splitDots rest with
      | seg :: segs => (c :: seg) :: segs
      | [] => [[c]]

/-- Read a non-empty list of decimal digits as a number; anything else is
not a valid version segment. -/
def digitsToNat (l : List Char) : Option Nat :=
  if l ≠ [] ∧ l.all Char.isDigit then
    some (l.foldl (fun n c => 10 * n + (c.toNat - 48)) 0)
  else none

/-- `version.NewSemver`, restricted to the dotted-numeric fragment fixed in
the spec's data model: split on `.`, every part a (possibly zero-padded)
decimal numeral, and pad the segment list to length 3, as the library does.
A malformed string yields `none`, standing for the library's `nil` result
(the `error` return that `main.go` discards with `_`). -/
def newSemver (s : String) : Option Version :=
  match (splitDots s.data).mapM digitsToNat with
  | none => none
  | some xs => some ⟨xs ++ List.replicate (3 - xs.length) 0⟩

/-- `(*version.Version).LessThanOrEqual` lifted to possibly-`nil` receivers
and arguments: `none` is a nil-pointer panic. -/
def lessThanOrEqual : Option Version → Option Version → Option Bool
  | some a, some b => some (ordLe (a.compare b))
  | _, _ => none

/-- `(*version.Version).LessThan` lifted to possibly-`nil` pointers. -/
def lessThan : Option Version → Option Version → Option Bool
  | some a, some b => some (ordLt (a.compare b))
  | _, _ => none

/-- `(*version.Version).GreaterThanOrEqual` lifted to possibly-`nil`
pointers (`Compare >= 0`, i.e. not `<`). -/
def greaterThanOrEqual : Option Version → Option Version → Option Bool
  | some a, some b => some (!ordLt (a.compare b))
  | _, _ => none

/-- `(*version.Version).GreaterThan` lifted to possibly-`nil` pointers. -/
def greaterThan : Option Version → Option Version → Option Bool
  | some a, some b => some (!ordLe (a.compare b))
  | _, _ => none

/-! ## The version range -/

/-- `VersionRange` (src/main.go lines 79-82). -/
structure VersionRange where
  Lower : String
  Upper : String
  LowerInclude : Bool
  UpperInclude : Bool
deriving DecidableEq, Repr

/-- The lower-bound block of `contains` (src/main.go lines 93-98):

    if vr.Lower != "" {
      lv, _ := version.NewSemver(vr.Lower)
      if bv.LessThanOrEqual(lv) || vr.LowerInclude && bv.LessThan(lv) {
        lowerOk = false
      }
    }

Go's `||` short-circuits, so the `bv.LessThan(lv)` operand is only
evaluated (and can only panic) when the first operand is `false` and
`vr.LowerInclude` holds.  The result is `some lowerOk`, or `none` for a
panic. -/
def lowerCheck (vr : VersionRange) (bv : Option Version) : Option Bool :=
  if vr.Lower = "" then some true
  else
    match lessThanOrEqual bv (newSemver vr.Lower) with
    | none => none
    | some true => some false
    | some false =>
      if vr.LowerInclude then
        match lessThan bv (newSemver vr.Lower) with
        | none => none
        | some c => some (!c)
      else some true

/-- The upper-bound block of `contains` (src/main.go lines 100-105), the
mirror image of `lowerCheck` with `GreaterThanOrEqual`/`GreaterThan`. -/
def upperCheck (vr : VersionRange) (bv : Option Version) : Option Bool :=
  if vr.Upper = "" then some true
  else
    match greaterThanOrEqual bv (newSemver vr.Upper) with
    | none => none
    | some true => some false
    | some false =>
      if vr.UpperInclude then
        match greaterThan bv (newSemver vr.Upper) with
        | none => none
        | some c => some (!c)
      else some true

/-- `(VersionRange).contains` (src/main.go lines 86-107).  Both bound
blocks execute in order before `lowerOk && upperOk` is returned; a panic
in either block (`none`) aborts the call. -/
def VersionRange.contains (vr : VersionRange) (v : String) : Option Bool :=
  if vr.Lower = "" ∧ vr.Upper = "" then some true
  else
    match lowerCheck vr (newSemver v) with
    | none => none
    | some lOk =>
      match upperCheck vr (newSemver v) with
      | none => none
      | some uOk => some (lOk && uOk)

/-- `(VersionRange).String` (src/main.go lines 109-130), the builder writes
reproduced step by step. -/
def VersionRange.string (vr : VersionRange) : String :=
  if vr.Lower = "" then ""
  else
    let sb := ">"
    let sb := if vr.LowerInclude then sb ++ "=" else sb
    let sb := sb ++ vr.Lower
    if vr.Upper ≠ "" then
      let sb := sb ++ " and "
      let sb := sb ++ "<"
      let sb := if vr.UpperInclude then sb ++ "=" else sb
      sb ++ vr.Upper
    else sb

/-! ## Parsing (`UnmarshalJSON`) -/

/-- The comma scan of `UnmarshalJSON` (src/main.go lines 140-146): Go's
`for` loop finds the first `,` in `b`; `findComma pre l` returns the
characters before the first comma of `l` (appended to `pre`) and the
characters after it. -/
def findComma (pre : List Char) : List Char → Option (List Char × List Char)
  | [] => none
  | c :: rest => if c = ',' then some (pre, rest) else findComma (pre ++ [c]) rest

/-- `(*VersionRange).UnmarshalJSON` (src/main.go lines 132-157) over the
raw JSON bytes (quotes included) of the string value, as `encoding/json`
hands them to the method.  `none` marks the places where the Go code
panics with an out-of-range slice index:

* `b = b[1 : len(b)-1]` when the value has fewer than 2 bytes;
* `switch b[0]` when the quoted string is empty (`b` is empty);
* `vr.Upper = string(b[i+1 : len(b)-1])` when the first comma is the last
  byte of `b` (`i+1 > len(b)-1`). -/
def unmarshalJSON (raw : List Char) : Option VersionRange :=
  if raw.length < 2 then none
  else
    let b := (raw.drop 1).dropLast
    match b with
    | [] => none
    | c :: rest =>
      if c = '[' ∨ c = '(' then
        match findComma [] (c :: rest) with
        | some (pre, post) =>
          if post = [] then none
          else
            some { Lower := (pre.drop 1).asString
                   Upper := post.dropLast.asString
                   LowerInclude := c = '['
                   UpperInclude := (c :: rest).getLast? = some ']' }
        | none =>
          some { Lower := ""
                 Upper := ""
                 LowerInclude := c = '['
                 UpperInclude := (c :: rest).getLast? = some ']' }
      else
        some { Lower := (c :: rest).asString
               Upper := ""
               LowerInclude := true
               UpperInclude := false }

/-- Parsing an interval string `s`: `encoding/json` invokes
`UnmarshalJSON` with the JSON encoding of `s`, i.e. `s` wrapped in
quotes (none of the inputs in scope need escaping). -/
def parseRange (s : String) : Option VersionRange :=
  unmarshalJSON ('"' :: s.data ++ ['"'])

/-! ## The filesystem model for `unzip`

`unzip` (src/main.go lines 196-245) works relative to the current working
directory.  We model the tree under the working directory as a finite
association list from paths (segment lists, the working directory itself
being `[]`) to nodes; the root always exists and is kept implicit.
Permission bits are not part of the modelled state (no claim in scope
mentions them).  Entry names, which in the zip format are
slash-separated strings, are carried as their segment lists. -/

/-- A filesystem node: a directory or a file with its byte content. -/
inductive FsNode where
  | dir : FsNode
  | file : String → FsNode
deriving DecidableEq, Repr

/-- The tree under the working directory: path segments to node. -/
abbrev FS := List (List String × FsNode)

/-- Look up the node at a path. -/
def FS.lookup (fs : FS) (p : List String) : Option FsNode :=
  (fs.find? (fun e => e.1 = p)).map (·.2)

/-- Write (create or replace) the node at a path. -/
def FS.set (fs : FS) (p : List String) (n : FsNode) : FS :=
  if (fs.find? (fun e => e.1 = p)).isSome then
    fs.map (fun e => if e.1 = p then (p, n) else e)
  else fs ++ [(p, n)]

/-- Errors of `unzip`, following the spec's taxonomy: the archive bytes
are not a valid zip (`zip.NewReader` fails); the target of `os.Mkdir`
already exists (`EEXIST`); any other filesystem failure inside the entry
loop. -/
inductive UnzipError where
  | invalidArchive : UnzipError
  | targetExists : UnzipError
  | fsError : UnzipError
deriving DecidableEq, Repr

/-- The proper non-empty ancestors-and-self chain of a path, shortest
first: for `[a,b,c]` the list `[[a],[a,b],[a,b,c]]`. -/
def ancestorChain (p : List String) : List (List String) :=
  (List.range p.length).map (fun i => p.take (i + 1))

/-- `os.MkdirAll`: walk the ancestor chain, accept existing directories,
fail on a path component that exists as a file, create what is missing.
On reachable (ancestor-closed) states this creates nothing before such a
failure, exactly as `os.MkdirAll` does. -/
def FS.mkdirAll (fs : FS) (p : List String) : FS × Option UnzipError :=
  (ancestorChain p).foldl
    (fun acc q =>
      match acc with
      | (f, some e) => (f, some e)
      | (f, none) =>
        match FS.lookup f q with
        | some .dir => (f, none)
        | some (.file _) => (f, some .fsError)
        | none => (FS.set f q .dir, none))
    (fs, none)

/-- `os.OpenFile` with `O_WRONLY|O_CREATE|O_TRUNC` followed by `io.Copy`:
fails if the path is the working directory itself, an existing directory,
or its parent is not an existing directory; otherwise creates (or
truncates) the file with the given content. -/
def FS.createFile (fs : FS) (p : List String) (content : String) :
    FS × Option UnzipError :=
  if p = [] then (fs, some .fsError)
  else
    match FS.lookup fs p with
    | some .dir => (fs, some .fsError)
    | _ =>
      if p.dropLast = [] ∨ FS.lookup fs p.dropLast = some .dir then
        (FS.set fs p (.file content), none)
      else (fs, some .fsError)

/-- One entry of the zip index: its name (already split on `/`), whether
it denotes a directory, and its decompressed content. -/
structure ZipEntry where
  name : List String
  isDir : Bool
  content : String
deriving DecidableEq, Repr

/-- The archive byte sequence, abstracted to what `zip.NewReader` extracts
from it: either not a valid archive, or a central-directory entry list. -/
inductive ZipBytes where
  | invalid : ZipBytes
  | valid : List ZipEntry → ZipBytes

/-- `filepath.Join(cwd, projectName, zf.Name)` relative to the working
directory: `filepath.Clean` semantics on an absolute base — empty and `.`
components vanish, `..` removes the previous component and saturates at
the root (the model's root is the working directory, so an escape above
it is truncated there; one level of `..` out of the project directory is
representable and is what the traversal claim exercises). -/
def cleanJoin (segs : List String) : List String :=
  segs.foldl
    (fun acc s =>
      if s = "" ∨ s = "." then acc
      else if s = ".." then acc.dropLast
      else acc ++ [s])
    []

/-- The entry loop of `unzip` (src/main.go lines 211-243): for each entry,
join its name under the project directory; a directory entry becomes
`MkdirAll fpath`, a file entry becomes `MkdirAll (Dir fpath)` followed by
create-and-copy.  The first error aborts the loop, leaving the writes
made so far in place. -/
def extractEntries (projectName : String) :
    List ZipEntry → FS → FS × Option UnzipError
  | [], fs => (fs, none)
  | zf :: rest, fs =>
    let fpath := cleanJoin (projectName :: zf.name)
    if zf.isDir then
      match FS.mkdirAll fs fpath with
      | (f, some e) => (f, some e)
      | (f, none) => extractEntries projectName rest f
    else
      match FS.mkdirAll fs fpath.dropLast with
      | (f, some e) => (f, some e)
      | (f, none) =>
        match FS.createFile f fpath zf.content with
        | (f2, some e) => (f2, some e)
        | (f2, none) => extractEntries projectName rest f2

/-- `unzip` (src/main.go lines 196-245): `zip.NewReader` first (its error
is returned before anything touches the disk), then
`os.Mkdir(filepath.Join(cwd, projectName), 0777)` (which fails with
`EEXIST` when the name already exists, as file or directory), then the
entry loop.  The result is the final filesystem and the error, if any. -/
def unzip (body : ZipBytes) (projectName : String) (fs : FS) :
    FS × Option UnzipError :=
  match body with
  | .invalid => (fs, some .invalidArchive)
  | .valid entries =>
    if (FS.lookup fs [projectName]).isSome then (fs, some .targetExists)
    else extractEntries projectName entries (FS.set fs [projectName] .dir)

/-! ## Basic facts about the embedded definitions -/

theorem cmpSegs_self (xs : List Nat) : cmpSegs xs xs = .eq := by
  induction xs with
  | nil => rfl
  | cons a as1 ih => simp [cmpSegs, ih]

theorem compare_self (v : Version) : v.compare v = .eq :=
  cmpSegs_self v.segments

theorem newSemver_empty : newSemver "" = none := rfl

theorem ne_empty_of_newSemver_some {s : String} {lv : Version}
    (h : newSemver s = some lv) : s ≠ "" := by
  intro hs
  rw [hs, newSemver_empty] at h
  exact Option.noConfusion h

theorem lowerCheck_empty (vr : VersionRange) (bv : Option Version)
    (h : vr.Lower = "") : lowerCheck vr bv = some true := by
  rw [lowerCheck, if_pos h]

theorem upperCheck_empty (vr : VersionRange) (bv : Option Version)
    (h : vr.Upper = "") : upperCheck vr bv = some true := by
  rw [upperCheck, if_pos h]

theorem lowerCheck_noneBound (vr : VersionRange) (bv : Option Version)
    (hne : vr.Lower ≠ "") (h : newSemver vr.Lower = none) :
    lowerCheck vr bv = none := by
  rw [lowerCheck, if_neg hne, h]
  cases bv <;> rfl

theorem upperCheck_noneBound (vr : VersionRange) (bv : Option Version)
    (hne : vr.Upper ≠ "") (h : newSemver vr.Upper = none) :
    upperCheck vr bv = none := by
  rw [upperCheck, if_neg hne, h]
  cases bv <;> rfl

theorem lowerCheck_some_eval (vr : VersionRange) (b lv : Version)
    (hlv : newSemver vr.Lower = some lv) :
    lowerCheck vr (some b) =
      if ordLe (b.compare lv) then some false
      else if vr.LowerInclude then some (!ordLt (b.compare lv))
      else some true := by
  rw [lowerCheck, if_neg (ne_empty_of_newSemver_some hlv), hlv]
  cases h1 : ordLe (b.compare lv) <;>
    simp [lessThanOrEqual, lessThan, h1]

theorem upperCheck_some_eval (vr : VersionRange) (b uv : Version)
    (huv : newSemver vr.Upper = some uv) :
    upperCheck vr (some b) =
      if ordLt (b.compare uv) then
        (if vr.UpperInclude then some (ordLe (b.compare uv)) else some true)
      else some false := by
  rw [upperCheck, if_neg (ne_empty_of_newSemver_some huv), huv]
  cases h1 : ordLt (b.compare uv) <;>
    simp [greaterThanOrEqual, greaterThan, h1]

theorem upperCheck_isSome (vr : VersionRange) (b : Version)
    (h : vr.Upper = "" ∨ (newSemver vr.Upper).isSome = true) :
    (upperCheck vr (some b)).isSome = true := by
  rcases h with h | h
  · rw [upperCheck_empty vr (some b) h]; rfl
  · obtain ⟨uv, huv⟩ := Option.isSome_iff_exists.mp h
    rw [upperCheck_some_eval vr b uv huv]
    split <;> [split <;> rfl; rfl]

theorem lowerCheck_isSome (vr : VersionRange) (b : Version)
    (h : vr.Lower = "" ∨ (newSemver vr.Lower).isSome = true) :
    (lowerCheck vr (some b)).isSome = true := by
  rcases h with h | h
  · rw [lowerCheck_empty vr (some b) h]; rfl
  · obtain ⟨lv, hlv⟩ := Option.isSome_iff_exists.mp h
    rw [lowerCheck_some_eval vr b lv hlv]
    split <;> [rfl; split <;> rfl]

theorem contains_of_lower_false (vr : VersionRange) (v : String)
    (hne : ¬(vr.Lower = "" ∧ vr.Upper = ""))
    (hl : lowerCheck vr (newSemver v) = some false)
    (hu : (upperCheck vr (newSemver v)).isSome = true) :
    vr.contains v = some false := by
  obtain ⟨uOk, huOk⟩ := Option.isSome_iff_exists.mp hu
  rw [VersionRange.contains, if_neg hne, hl, huOk]
  rfl

theorem contains_of_upper_false (vr : VersionRange) (v : String)
    (hne : ¬(vr.Lower = "" ∧ vr.Upper = ""))
    (hl : (lowerCheck vr (newSemver v)).isSome = true)
    (hu : upperCheck vr (newSemver v) = some false) :
    vr.contains v = some false := by
  obtain ⟨lOk, hlOk⟩ := Option.isSome_iff_exists.mp hl
  rw [VersionRange.contains, if_neg hne, hlOk, hu]
  simp

theorem contains_of_both_true (vr : VersionRange) (v : String)
    (hne : ¬(vr.Lower = "" ∧ vr.Upper = ""))
    (hl : lowerCheck vr (newSemver v) = some true)
    (hu : upperCheck vr (newSemver v) = some true) :
    vr.contains v = some true := by
  rw [VersionRange.contains, if_neg hne, hl, hu]
  rfl

/-! ## Claim theorems: the containment test -/

/-- C10: for every version string `v` and the universal interval (both
bound strings empty), `contains` returns `true`, for any values of the
inclusivity flags and even when `v` is not a parseable semantic version
(the early return fires before `v` is ever parsed). -/
theorem contains_universal_interval (li ui : Bool) (v : String) :
    VersionRange.contains ⟨"", "", li, ui⟩ v = some true := rfl

/-- C1 (code bug): the code rejects a candidate exactly equal to an
inclusive bound.  In `bv.LessThanOrEqual(lv) || vr.LowerInclude &&
bv.LessThan(lv)` the second disjunct is subsumed by the first, so
`LowerInclude` is dead and equality with the bound always fails the
check; the upper bound mirrors this.  Evaluating the code at the claim's
own examples: `[3.2.0,)` rejects `3.2.0`, and `[1.0.0,2.0.0]` rejects
both endpoints while the strict interior and exterior behave as the
claim says. -/
theorem contains_rejects_inclusive_endpoints :
    VersionRange.contains ⟨"3.2.0", "", true, false⟩ "3.2.0" = some false
    ∧ VersionRange.contains ⟨"1.0.0", "2.0.0", true, true⟩ "1.0.0" = some false
    ∧ VersionRange.contains ⟨"1.0.0", "2.0.0", true, true⟩ "2.0.0" = some false
    ∧ VersionRange.contains ⟨"1.0.0", "2.0.0", true, true⟩ "1.5.0" = some true
    ∧ VersionRange.contains ⟨"1.0.0", "2.0.0", true, true⟩ "0.9.9" = some false
    ∧ VersionRange.contains ⟨"1.0.0", "2.0.0", true, true⟩ "2.0.1" = some false :=
  ⟨rfl, rfl, rfl, rfl, rfl, rfl⟩

/-- C3 (counterexample): for the interval with lower bound `"abc"` (not a
parseable semantic version) and candidate `1.0.0`, `contains` does not
degrade to `true`; it crashes (`none` models the Go nil-pointer panic in
`bv.LessThanOrEqual(lv)` with `lv = nil`). -/
theorem contains_unparseable_bound_cex :
    VersionRange.contains ⟨"abc", "", true, false⟩ "1.0.0" = none := rfl

/-- C3 (amended): whenever the interval is not universal and one of its
non-empty bound strings fails to parse as a semantic version, `contains`
dereferences the `nil` parsed bound and panics (modelled as `none`); the
bound is not treated as absent. -/
theorem contains_crashes_on_unparseable_bound (vr : VersionRange) (v : String)
    (h : (vr.Lower ≠ "" ∧ newSemver vr.Lower = none) ∨
         (vr.Upper ≠ "" ∧ newSemver vr.Upper = none)) :
    vr.contains v = none := by
  rcases h with ⟨hne, hnone⟩ | ⟨hne, hnone⟩
  · have hcond : ¬(vr.Lower = "" ∧ vr.Upper = "") := fun hc => hne hc.1
    rw [VersionRange.contains, if_neg hcond,
      lowerCheck_noneBound vr (newSemver v) hne hnone]
  · have hcond : ¬(vr.Lower = "" ∧ vr.Upper = "") := fun hc => hne hc.2
    rw [VersionRange.contains, if_neg hcond]
    cases hl : lowerCheck vr (newSemver v) with
    | none => rfl
    | some lOk =>
      rw [upperCheck_noneBound vr (newSemver v) hne hnone]

/-- Witness for the amended C3 theorem: an interval whose upper bound
`x.y` is unparseable makes `contains` crash on the candidate `1.5.0`. -/
theorem contains_crashes_on_unparseable_bound_witness :
    VersionRange.contains ⟨"1.0.0", "x.y", true, true⟩ "1.5.0" = none :=
  contains_crashes_on_unparseable_bound ⟨"1.0.0", "x.y", true, true⟩ "1.5.0"
    (Or.inr ⟨by decide, rfl⟩)

/-- C4: exclusive bounds reject a candidate exactly equal to the bound
and accept candidates strictly inside; the upper check mirrors the
lower.  Stated generally (for intervals whose other bound is absent or
parseable, so that the call completes) and at the claim's examples:
`(3.2.0,)` is `false` on `3.2.0` and `true` on `3.2.1`; `[1.0.0,2.0.0)`
is `false` on `2.0.0` and `true` on `1.9.9`. -/
theorem contains_exclusive_bound_semantics :
    (∀ (vr : VersionRange) (v : String) (bv lv : Version),
        vr.LowerInclude = false →
        newSemver v = some bv → newSemver vr.Lower = some lv →
        bv.compare lv = .eq →
        (vr.Upper = "" ∨ (newSemver vr.Upper).isSome = true) →
        vr.contains v = some false)
    ∧ (∀ (vr : VersionRange) (v : String) (bv uv : Version),
        vr.UpperInclude = false →
        newSemver v = some bv → newSemver vr.Upper = some uv →
        bv.compare uv = .eq →
        (vr.Lower = "" ∨ (newSemver vr.Lower).isSome = true) →
        vr.contains v = some false)
    ∧ (∀ (vr : VersionRange) (v : String) (bv : Version),
        newSemver v = some bv →
        (vr.Lower = "" ∨ ∃ lv, newSemver vr.Lower = some lv ∧ bv.compare lv = .gt) →
        (vr.Upper = "" ∨ ∃ uv, newSemver vr.Upper = some uv ∧ bv.compare uv = .lt) →
        vr.contains v = some true)
    ∧ VersionRange.contains ⟨"3.2.0", "", false, false⟩ "3.2.0" = some false
    ∧ VersionRange.contains ⟨"3.2.0", "", false, false⟩ "3.2.1" = some true
    ∧ VersionRange.contains ⟨"1.0.0", "2.0.0", true, false⟩ "2.0.0" = some false
    ∧ VersionRange.contains ⟨"1.0.0", "2.0.0", true, false⟩ "1.9.9" = some true := by
  refine ⟨?_, ?_, ?_, rfl, rfl, rfl, rfl⟩
  · intro vr v bv lv _ hbv hlv heq hup
    have hne : ¬(vr.Lower = "" ∧ vr.Upper = "") :=
      fun hc => ne_empty_of_newSemver_some hlv hc.1
    refine contains_of_lower_false vr v hne ?_ ?_
    · rw [hbv, lowerCheck_some_eval vr bv lv hlv, heq]
      rfl
    · rw [hbv]
      exact upperCheck_isSome vr bv hup
  · intro vr v bv uv _ hbv huv heq hlow
    have hne : ¬(vr.Lower = "" ∧ vr.Upper = "") :=
      fun hc => ne_empty_of_newSemver_some huv hc.2
    refine contains_of_upper_false vr v hne ?_ ?_
    · rw [hbv]
      exact lowerCheck_isSome vr bv hlow
    · rw [hbv, upperCheck_some_eval vr bv uv huv, heq]
      rfl
  · intro vr v bv hbv hlow hup
    by_cases hboth : vr.Lower = "" ∧ vr.Upper = ""
    · rw [VersionRange.contains, if_pos hboth]
    · refine contains_of_both_true vr v hboth ?_ ?_
      · rcases hlow with h | ⟨lv, hlv, hgt⟩
        · exact lowerCheck_empty vr (newSemver v) h
        · rw [hbv, lowerCheck_some_eval vr bv lv hlv, hgt]
          cases h2 : vr.LowerInclude <;> rfl
      · rcases hup with h | ⟨uv, huv, hlt⟩
        · exact upperCheck_empty vr (newSemver v) h
        · rw [hbv, upperCheck_some_eval vr bv uv huv, hlt]
          cases h2 : vr.UpperInclude <;> rfl

/-- Witness for C4: the exclusive-lower rule applied at a fresh concrete
input, `(5.0.0,)` rejecting `5.0.0`. -/
theorem contains_exclusive_bound_semantics_witness :
    VersionRange.contains ⟨"5.0.0", "", false, false⟩ "5.0.0" = some false :=
  contains_exclusive_bound_semantics.1 ⟨"5.0.0", "", false, false⟩ "5.0.0"
    ⟨[5, 0, 0]⟩ ⟨[5, 0, 0]⟩ rfl rfl rfl rfl (Or.inl rfl)

/-- Strings with equal character data are equal. -/
theorem str_data_ext {a b : String} (h : a.data = b.data) : a = b := by
  cases a
  cases b
  exact congrArg String.mk h

/-- C9: `String()` renders `>`/`>=` for the lower bound and `<`/`<=` for
the upper bound according to the inclusivity flags, joins the two sides
with `" and "` when both are present, and yields `""` whenever the lower
bound is absent — stated as the closed-form condition string, plus the
spec's own example. -/
theorem string_renders_condition (vr : VersionRange) :
    vr.string =
      (if vr.Lower = "" then ""
       else
         (if vr.LowerInclude then ">=" else ">") ++ vr.Lower ++
           (if vr.Upper = "" then ""
            else (if vr.UpperInclude then " and <=" else " and <") ++ vr.Upper))
    ∧ VersionRange.string ⟨"3.2.0", "4.0.0", true, false⟩ = ">=3.2.0 and <4.0.0" := by
  refine ⟨?_, rfl⟩
  obtain ⟨lo, up, li, ui⟩ := vr
  by_cases hl : lo = ""
  · simp [VersionRange.string, hl]
  · by_cases hu : up = "" <;> cases li <;> cases ui <;>
      · apply str_data_ext
        simp [VersionRange.string, hl, hu, String.data_append]

/-! ## Claim theorems: parsing -/

/-- Modelled from the spec: the documented bound rules of `Contains`
(spec §4.1 and §4.4) as a predicate on a parsed candidate — a lower
bound accepts candidates strictly greater than it, and equality exactly
when the bound is inclusive; the upper bound mirrors this; a bound that
is empty or fails to parse as a semantic version contributes no
constraint (the spec's edge-case policy).  Used only to state the
divergence between the documented rules and the code's `contains`. -/
def specContains (vr : VersionRange) (bv : Version) : Bool :=
  (match newSemver vr.Lower with
   | none => true
   | some lv =>
     if vr.LowerInclude then ordLe (lv.compare bv) else ordLt (lv.compare bv))
  && (match newSemver vr.Upper with
      | none => true
      | some uv =>
        if vr.UpperInclude then ordLe (bv.compare uv) else ordLt (bv.compare uv))

/-- C5 (code bug): parsing maps `[1.0.0,2.0.0]` to exactly the documented
closed interval, and the documented bound rules accept the endpoint
`1.0.0` of that interval, but the code's `contains` rejects it — so
`Parse` composed with `Contains` does not agree with the documented
bound rules (same underlying defect as the inclusive-endpoint bug). -/
theorem parse_then_contains_diverges :
    parseRange "[1.0.0,2.0.0]" = some ⟨"1.0.0", "2.0.0", true, true⟩
    ∧ newSemver "1.0.0" = some ⟨[1, 0, 0]⟩
    ∧ specContains ⟨"1.0.0", "2.0.0", true, true⟩ ⟨[1, 0, 0]⟩ = true
    ∧ VersionRange.contains ⟨"1.0.0", "2.0.0", true, true⟩ "1.0.0" = some false :=
  ⟨rfl, rfl, rfl, rfl⟩

/-! ## Claim theorems: archive extraction -/

/-- C6: extracting the archive with top-level file `a.txt`, nested file
`dir/b.txt` and empty directory `emptydir/` into the fresh target `proj`
succeeds and produces exactly the directory `proj`, the file
`proj/a.txt`, the (implied) directory `proj/dir`, the file
`proj/dir/b.txt` and the directory `proj/emptydir`, with the archive's
byte contents verbatim — no extra and no missing entries. -/
theorem unzip_materializes_entry_tree :
    unzip (.valid [⟨["a.txt"], false, "alpha"⟩,
                   ⟨["dir", "b.txt"], false, "bravo"⟩,
                   ⟨["emptydir"], true, ""⟩]) "proj" [] =
      ([(["proj"], .dir),
        (["proj", "a.txt"], .file "alpha"),
        (["proj", "dir"], .dir),
        (["proj", "dir", "b.txt"], .file "bravo"),
        (["proj", "emptydir"], .dir)], none) := rfl

/-- C7: the two early-failure cases of `unzip` leave the filesystem
untouched — an invalid archive fails with the invalid-archive error
before any directory is created (for every starting filesystem and
target name), and a target name that already exists as a directory
fails with the already-exists error with no writes of archive entries
(for every entry list). -/
theorem unzip_early_failures :
    (∀ (fs : FS) (name : String),
        unzip .invalid name fs = (fs, some .invalidArchive))
    ∧ (∀ (fs : FS) (name : String) (entries : List ZipEntry),
        FS.lookup fs [name] = some .dir →
        unzip (.valid entries) name fs = (fs, some .targetExists)) := by
  refine ⟨fun fs name => rfl, fun fs name entries h => ?_⟩
  rw [unzip, h]
  rfl

/-- Witness for C7: extraction of a well-formed archive into the
already-existing directory `proj` fails with the already-exists error
and writes nothing. -/
theorem unzip_early_failures_witness :
    unzip (.valid [⟨["a.txt"], false, "x"⟩]) "proj" [(["proj"], FsNode.dir)] =
      ([(["proj"], FsNode.dir)], some .targetExists) :=
  unzip_early_failures.2 [(["proj"], FsNode.dir)] "proj"
    [⟨["a.txt"], false, "x"⟩] rfl

/-- C8: `unzip` performs no confinement check on entry names: the entry
named `../evil.txt` resolves (via `filepath.Join`'s `..` resolution)
outside the `proj` target tree and is written there — extraction
succeeds and creates the file at `evil.txt`, a path that does not start
with the `proj` root segment. -/
theorem unzip_writes_outside_target :
    unzip (.valid [⟨["..", "evil.txt"], false, "pwned"⟩]) "proj" [] =
      ([(["proj"], .dir), (["evil.txt"], .file "pwned")], none)
    ∧ FS.lookup [(["proj"], FsNode.dir), (["evil.txt"], FsNode.file "pwned")]
        ["evil.txt"] = some (.file "pwned")
    ∧ List.take 1 ["evil.txt"] ≠ ["proj"] :=
  ⟨rfl, rfl, by decide⟩

/-- Stripping the JSON quotes: dropping the first and last byte of a
quoted value recovers the inner bytes. -/
theorem strip_quotes (l : List Char) :
    (('"' :: l ++ ['"']).drop 1).dropLast = l := by
  simp

/-- If a list contains a comma and does not end with one, the comma scan
succeeds and the part after the first comma is non-empty. -/
theorem findComma_some (l : List Char) (hmem : ',' ∈ l)
    (hlast : l.getLast? ≠ some ',') :
    ∀ pre, ∃ pr po, findComma pre l = some (pr, po) ∧ po ≠ [] := by
  induction l with
  | nil => cases hmem
  | cons c rest ih =>
    intro pre
    by_cases hc : c = ','
    · subst hc
      have hrest : rest ≠ [] := by
        intro h
        subst h
        exact hlast rfl
      exact ⟨pre, rest, by rw [findComma, if_pos rfl], hrest⟩
    · have hmem' : ',' ∈ rest := by
        rcases List.mem_cons.mp hmem with h | h
        · exact absurd h.symm hc
        · exact h
      have hrest : rest ≠ [] := List.ne_nil_of_mem hmem'
      have hlast' : rest.getLast? ≠ some ',' := by
        obtain ⟨r, rs, rfl⟩ := List.exists_cons_of_ne_nil hrest
        rw [List.getLast?_cons_cons] at hlast
        exact hlast
      obtain ⟨pr, po, heq, hpo⟩ := ih hmem' hlast' (pre ++ [c])
      refine ⟨pr, po, ?_, hpo⟩
      rw [findComma, if_neg hc, heq]

/-- C2 (counterexample): parsing the JSON encoding of the empty string
does not produce the universal interval; the Go code panics with an
index-out-of-range on `b[0]` (modelled as `none`). -/
theorem parse_empty_string_cex : parseRange "" = none := rfl

/-- C2 (amended): parsing is a pure function and succeeds on every
non-empty documented shape — a bare token not opening with a bracket
parses to the lower-inclusive unbounded-above interval on that token,
and any bracketed pair (`[` or `(`, a comma somewhere inside, closed by
`]` or `)`) parses successfully — but the empty string makes the parser
panic instead of yielding the universal interval (that interval arises
only as the zero value when the field is absent). -/
theorem parse_total_on_nonempty_shapes :
    (∀ (s : String) (c : Char) (cs : List Char),
        s.data = c :: cs → c ≠ '[' → c ≠ '(' →
        parseRange s = some ⟨s, "", true, false⟩)
    ∧ (∀ (op cl : Char) (mid : List Char),
        (op = '[' ∨ op = '(') → (cl = ']' ∨ cl = ')') → ',' ∈ mid →
        (parseRange (op :: mid ++ [cl]).asString).isSome = true)
    ∧ parseRange "" = none := by
  refine ⟨?_, ?_, rfl⟩
  · intro s c cs hdata hc1 hc2
    obtain ⟨data⟩ := s
    simp only [String.data] at hdata
    subst hdata
    simp only [parseRange, unmarshalJSON, strip_quotes]
    rw [if_neg (by simp)]
    simp [hc1, hc2, List.asString]
  · intro op cl mid hop hcl hmem
    have hclc : cl ≠ ',' := by
      rcases hcl with h | h <;> subst h <;> decide
    have hmem2 : ',' ∈ op :: (mid ++ [cl]) :=
      List.mem_cons_of_mem op (List.mem_append_left [cl] hmem)
    have hlast : (op :: (mid ++ [cl])).getLast? = some cl := by
      rw [show op :: (mid ++ [cl]) = (op :: mid) ++ [cl] by simp]
      exact List.getLast?_concat _
    obtain ⟨pr, po, heq, hpo⟩ :=
      findComma_some (op :: (mid ++ [cl])) hmem2
        (by rw [hlast]; simp [hclc]) []
    simp only [parseRange, unmarshalJSON, strip_quotes]
    rw [if_neg (by simp)]
    simp [hop, heq, hpo, List.asString]

/-- Witness for the amended C2 theorem: the bare token `2.3.4` parses to
the lower-inclusive unbounded-above interval at that token. -/
theorem parse_total_on_nonempty_shapes_witness :
    parseRange "2.3.4" = some ⟨"2.3.4", "", true, false⟩ :=
  parse_total_on_nonempty_shapes.1 "2.3.4" '2' ".3.4".data rfl
    (by decide) (by decide)
